import Mathlib

/-!
Shallow embedding of the chiyo HTTP router (src/chiyo.go, the version with
parameter names and context injection).  Handlers are opaque values of a type
parameter `H`; middleware are functions `H → H`; dispatch is modelled as a
pure function returning which handler is invoked (already wrapped by the
global middleware), together with the parameter mapping injected into the
request context, or the not-found fallback.
-/

namespace Chiyo

/-- Drop all leading slash characters from a character list
(one half of Go strings.Trim(s, "/")). -/
def dropLeadingSlashes : List Char → List Char
  | [] => []
  | c :: cs => if c = '/' then dropLeadingSlashes cs else c :: cs

/-- Character-level trim: drop leading slashes, then trailing ones
(by reversing, dropping leading, reversing back). -/
def trimChars (cs : List Char) : List Char :=
  (dropLeadingSlashes ((dropLeadingSlashes cs).reverse)).reverse

/-- Models Go strings.Trim(path, "/"): removes all leading and trailing
slash characters. -/
def trimSlashes (s : String) : String :=
  ⟨trimChars s.data⟩

/-- Split a character list on the slash character, Go strings.Split
semantics: the empty list yields one empty chunk, and consecutive
slashes yield empty chunks. -/
def splitChars : List Char → List (List Char)
  | [] => [[]]
  | c :: cs =>
    if c = '/' then [] :: splitChars cs
    else
      match splitChars cs with
      | [] => [[c]]
      | s :: rest => (c :: s) :: rest

/-- Models Go strings.Split(path, "/"). -/
def splitSlash (s : String) : List String :=
  (splitChars s.data).map (fun cs => ⟨cs⟩)

/-- Models Go strings.Contains(s, c) for a one-character needle. -/
def strContains (s : String) (c : Char) : Bool :=
  s.data.any (fun x => x = c)

/-- Models Go strings.HasPrefix(s, c) for a one-character needle. -/
def headIs (s : String) (c : Char) : Bool :=
  match s.data with
  | [] => false
  | x :: _ => x = c

/-- Models Go strings.TrimPrefix(s, c) for a one-character needle. -/
def trimHead (s : String) (c : Char) : String :=
  match s.data with
  | [] => s
  | x :: xs => if x = c then ⟨xs⟩ else s

/-- Association-list model of a Go map: lookup. -/
def mapLookup {α : Type} : List (String × α) → String → Option α
  | [], _ => none
  | (k', v') :: rest, k => if k' = k then some v' else mapLookup rest k

/-- Association-list model of a Go map: insert, replacing in place the
binding of an existing key (Go map assignment semantics). -/
def mapInsert {α : Type} : List (String × α) → String → α → List (String × α)
  | [], k, v => [(k, v)]
  | (k', v') :: rest, k, v =>
    if k' = k then (k, v) :: rest else (k', v') :: mapInsert rest k v

/-- Trie node of the dynamic-route tree (type `node` in the source):
children keyed by segment key, optional terminal handler, parameter and
wildcard flags (the source spells the latter `isWillcard`), and the
declared parameter name. -/
inductive Node (H : Type) where
  | mk (children : List (String × Node H)) (handler : Option H)
       (isParam : Bool) (isWillcard : Bool) (paramName : String)

def Node.children {H : Type} : Node H → List (String × Node H)
  | .mk c _ _ _ _ => c

def Node.handler {H : Type} : Node H → Option H
  | .mk _ h _ _ _ => h

def Node.isParam {H : Type} : Node H → Bool
  | .mk _ _ p _ _ => p

def Node.isWillcard {H : Type} : Node H → Bool
  | .mk _ _ _ w _ => w

def Node.paramName {H : Type} : Node H → String
  | .mk _ _ _ _ n => n

def Node.setHandler {H : Type} : Node H → H → Node H
  | .mk c _ p w n, h => .mk c (some h) p w n

def Node.setChildren {H : Type} : Node H → List (String × Node H) → Node H
  | .mk _ h p w n, c => .mk c h p w n

/-- A fresh node with empty children, as allocated by the source. -/
def emptyNode {H : Type} (isParam isWillcard : Bool) (paramName : String) :
    Node H :=
  .mk [] none isParam isWillcard paramName

/-- The `Router` struct: static route table keyed by "METHOD PATH",
per-method dynamic tries, global middleware chain, not-found fallback. -/
structure Router (H : Type) where
  staticRoutes : List (String × H)
  dynamicRoutes : List (String × Node H)
  middleware : List (H → H)
  notFound : H

/-- The `Group` struct: trimmed path stem plus the group's own middleware
chain.  The back-reference to the owning router is modelled by passing the
router explicitly to `Group.AddRoute`. -/
structure Group (H : Type) where
  pfx : String
  middleware : List (H → H)

/-- NewRouter: empty tables, empty middleware; `nf` stands for the external
library value http.NotFound installed as the default fallback. -/
def NewRouter {H : Type} (nf : H) : Router H :=
  { staticRoutes := [], dynamicRoutes := [], middleware := [], notFound := nf }

/-- Router.Group(pfx): trims slashes from the stem; the group starts with
no middleware of its own. -/
def Router.Group {H : Type} (_ : Router H) (p : String) : Group H :=
  { pfx := trimSlashes p, middleware := [] }

/-- Router.Use: appends to the global middleware sequence. -/
def Router.Use {H : Type} (r : Router H) (mw : H → H) : Router H :=
  { r with middleware := r.middleware ++ [mw] }

/-- Group.Use: appends to the group's own middleware sequence. -/
def Group.Use {H : Type} (g : Group H) (mw : H → H) : Group H :=
  { g with middleware := g.middleware ++ [mw] }

/-- The per-segment key classification done inside insertDynamicRoute:
a segment starting with the colon maps to the reserved key ":param" and
records its name; a segment starting with the star maps to "*"; anything
else is a literal key. -/
structure KeyInfo where
  key : String
  isParam : Bool
  isWillcard : Bool
  paramName : String

def nodeKey (part : String) : KeyInfo :=
  if headIs part ':' then
    { key := ":param", isParam := true, isWillcard := false,
      paramName := trimHead part ':' }
  else if headIs part '*' then
    { key := "*", isParam := false, isWillcard := true, paramName := "" }
  else
    { key := part, isParam := false, isWillcard := false, paramName := "" }

/-- The walking loop of insertDynamicRoute: descend segment by segment,
creating an absent child (with the flags and name computed for this
segment; an existing child keeps its original flags and name), and set the
handler on the final node, overwriting any previous one. -/
def insertParts {H : Type} (cur : Node H) (parts : List String) (h : H) :
    Node H :=
  match parts with
  | [] => cur.setHandler h
  | part :: rest =>
    let k := nodeKey part
    let child :=
      match mapLookup cur.children k.key with
      | some c => c
      | none => emptyNode k.isParam k.isWillcard k.paramName
    cur.setChildren (mapInsert cur.children k.key (insertParts child rest h))

/-- Router.AddRoute: trim slashes, split into parts, classify the whole
path as dynamic iff it contains a colon or a star anywhere, then insert
into the dynamic trie (creating the per-method root if absent) or the
static table keyed by "METHOD PATH". -/
def Router.AddRoute {H : Type} (r : Router H) (method path : String)
    (handler : H) : Router H :=
  let path' := trimSlashes path
  let parts := splitSlash path'
  if strContains path' ':' || strContains path' '*' then
    let root :=
      match mapLookup r.dynamicRoutes method with
      | some n => n
      | none => emptyNode false false ""
    { r with dynamicRoutes :=
        mapInsert r.dynamicRoutes method (insertParts root parts handler) }
  else
    { r with staticRoutes :=
        mapInsert r.staticRoutes (method ++ " " ++ path') handler }

/-- The wrapping loop of Group.AddRoute, which runs the index i from
len(middleware) down to 0 inclusive and applies middleware[i] at each
step.  An out-of-range index is a Go runtime panic, modelled as `none`. -/
def groupWrap {H : Type} (mws : List (H → H)) : Nat → H → Option H
  | 0, h =>
    match mws[0]? with
    | none => none
    | some m => some (m h)
  | i + 1, h =>
    match mws[i + 1]? with
    | none => none
    | some m => groupWrap mws i (m h)

/-- Group.AddRoute: concatenate the stem and the trimmed path, wrap the
handler with the group's middleware via the source's descending loop
(which starts at index len(middleware)), then delegate to the parent
router's AddRoute.  `none` models the panic of an out-of-range index. -/
def Group.AddRoute {H : Type} (g : Group H) (r : Router H)
    (method path : String) (handler : H) : Option (Router H) :=
  let fullPath := g.pfx ++ "/" ++ trimSlashes path
  match groupWrap g.middleware g.middleware.length handler with
  | none => none
  | some wrapped => some (r.AddRoute method fullPath wrapped)

/-- The search loop of searchDynamicRoute over the remaining parts:
literal child first, else the parameter child (binding the segment value
under the declared name when the name is non-empty), else a wildcard child
returns its handler immediately, else the search fails with `(none, [])`
(the source returns nil, nil). -/
def searchParts {H : Type} (cur : Node H) (parts : List String)
    (params : List (String × String)) :
    Option H × List (String × String) :=
  match parts with
  | [] => (cur.handler, params)
  | part :: rest =>
    match mapLookup cur.children part with
    | some child => searchParts child rest params
    | none =>
      match mapLookup cur.children ":param" with
      | some paramChild =>
        let params' :=
          if paramChild.paramName ≠ "" then
            mapInsert params paramChild.paramName part
          else params
        searchParts paramChild rest params'
      | none =>
        match mapLookup cur.children "*" with
        | some wildcardChild => (wildcardChild.handler, params)
        | none => (none, [])

/-- searchDynamicRoute(root, path): split the (already trimmed) path and
walk the trie with an empty parameter map. -/
def Router.searchDynamicRoute {H : Type} (root : Node H) (path : String) :
    Option H × List (String × String) :=
  searchParts root (splitSlash path) []

/-- The wrapping loop of serveWithMiddleware, running i from
len(middleware)-1 down to 0 and re-binding handler = middleware[i](handler);
all indices are in range when entered from serveWithMiddleware. -/
def midLoop {H : Type} (mws : List (H → H)) : Nat → H → H
  | 0, h =>
    match mws[0]? with
    | none => h
    | some m => m h
  | i + 1, h =>
    match mws[i + 1]? with
    | none => h
    | some m => midLoop mws i (m h)

/-- serveWithMiddleware: with no middleware invoke the handler directly;
otherwise wrap it by the loop from the last index down to 0 and invoke the
result.  Modelled as returning the effective handler that gets invoked. -/
def serveWithMiddleware {H : Type} (mws : List (H → H)) (handler : H) : H :=
  if mws.length = 0 then handler
  else midLoop mws (mws.length - 1) handler

/-- Observable outcome of one dispatch: exactly one handler invocation.
`static` and `dynamic` carry the effective (middleware-wrapped) handler;
`dynamic` additionally carries the context key and parameter map injected
into the request before invocation; `notFound` carries the fallback, which
is invoked unwrapped. -/
inductive Outcome (H : Type) where
  | static (effective : H)
  | dynamic (effective : H) (ctxKey : String) (params : List (String × String))
  | notFound (fallback : H)
  deriving DecidableEq

/-- ServeHTTP: trim the request path, try the static table under
"METHOD PATH", else search the method's dynamic trie; on a dynamic hit
attach the parameter map under the context key "params" and invoke the
wrapped handler; otherwise invoke the not-found fallback. -/
def Router.ServeHTTP {H : Type} (r : Router H) (method rawPath : String) :
    Outcome H :=
  let path := trimSlashes rawPath
  let fullPath := method ++ " " ++ path
  match mapLookup r.staticRoutes fullPath with
  | some handler => .static (serveWithMiddleware r.middleware handler)
  | none =>
    match mapLookup r.dynamicRoutes method with
    | some root =>
      match Router.searchDynamicRoute root path with
      | (some handler, params) =>
        .dynamic (serveWithMiddleware r.middleware handler) "params" params
      | (none, _) => .notFound r.notFound
    | none => .notFound r.notFound

/-- A router built the way an application does: NewRouter followed by one
Router.Use call per middleware, in order. -/
def mkRouter {H : Type} (nf : H) (mws : List (H → H)) : Router H :=
  mws.foldl Router.Use (NewRouter nf)

/-- Join a list of path segments with slashes (used only to quantify over
request paths with an arbitrary number of segments). -/
def joinSegs : List String → String
  | [] => ""
  | [s] => s
  | s :: rest => s ++ "/" ++ joinSegs rest

/-! ### Lemmas about the association-list map model -/

theorem mapLookup_insert_self {α : Type} (m : List (String × α)) (k : String)
    (v : α) : mapLookup (mapInsert m k v) k = some v := by
  induction m with
  | nil => simp [mapInsert, mapLookup]
  | cons p rest ih =>
    rcases p with ⟨k', v'⟩
    by_cases h : k' = k
    · simp [mapInsert, mapLookup, h]
    · simp [mapInsert, mapLookup, h, ih]

theorem mapInsert_mapInsert {α : Type} (m : List (String × α)) (k : String)
    (v v' : α) : mapInsert (mapInsert m k v) k v' = mapInsert m k v' := by
  induction m with
  | nil => simp [mapInsert]
  | cons p rest ih =>
    rcases p with ⟨k', w⟩
    by_cases h : k' = k
    · simp [mapInsert, h]
    · simp [mapInsert, h, ih]

/-! ### Lemmas about trie nodes -/

theorem Node.children_setChildren {H : Type} (n : Node H)
    (c : List (String × Node H)) : (Node.setChildren n c).children = c := by
  cases n
  rfl

theorem Node.setChildren_setChildren {H : Type} (n : Node H)
    (c c' : List (String × Node H)) :
    Node.setChildren (Node.setChildren n c) c' = Node.setChildren n c' := by
  cases n
  rfl

theorem Node.setHandler_setHandler {H : Type} (n : Node H) (h h' : H) :
    Node.setHandler (Node.setHandler n h) h' = Node.setHandler n h' := by
  cases n
  rfl

/-! ### The middleware-wrapping loops -/

theorem groupWrap_length {H : Type} (mws : List (H → H)) (h : H) :
    groupWrap mws mws.length h = none := by
  cases mws with
  | nil => rfl
  | cons m rest =>
    show groupWrap (m :: rest) (rest.length + 1) h = none
    have hnone : (m :: rest)[rest.length + 1]? = none := by
      exact List.getElem?_eq_none (by simp)
    simp [groupWrap, hnone]

theorem midLoop_eq_foldr_take {H : Type} (mws : List (H → H)) :
    ∀ (i : Nat) (h : H), i < mws.length →
      midLoop mws i h = (mws.take (i + 1)).foldr (fun m acc => m acc) h := by
  intro i
  induction i with
  | zero =>
    intro h hi
    cases mws with
    | nil => simp at hi
    | cons m rest => simp [midLoop, List.take_succ]
  | succ i ih =>
    intro h hi
    obtain ⟨m, hget⟩ : ∃ m, mws[i + 1]? = some m :=
      ⟨_, List.getElem?_eq_getElem hi⟩
    have hi' : i < mws.length := Nat.lt_of_succ_lt hi
    calc midLoop mws (i + 1) h
        = midLoop mws i (m h) := by simp [midLoop, hget]
      _ = (mws.take (i + 1)).foldr (fun m acc => m acc) (m h) :=
          ih _ hi'
      _ = (mws.take (i + 1 + 1)).foldr (fun m acc => m acc) h := by
          conv_rhs => rw [List.take_succ]
          rw [hget, List.foldr_append]
          simp

theorem serveWithMiddleware_eq_foldr {H : Type} (mws : List (H → H)) (h : H) :
    serveWithMiddleware mws h = mws.foldr (fun m acc => m acc) h := by
  unfold serveWithMiddleware
  cases mws with
  | nil => simp
  | cons m rest =>
    have hlen : (m :: rest).length - 1 < (m :: rest).length := by simp
    have := midLoop_eq_foldr_take (m :: rest) ((m :: rest).length - 1) h hlen
    simp only [List.length_cons, Nat.add_sub_cancel] at this ⊢
    rw [if_neg (by simp), this]
    rw [show rest.length + 1 = (m :: rest).length by simp, List.take_length]

/-! ### Routers built by NewRouter and Use -/

theorem foldl_Use {H : Type} (mws : List (H → H)) :
    ∀ r : Router H, mws.foldl Router.Use r =
      { r with middleware := r.middleware ++ mws } := by
  induction mws with
  | nil =>
    intro r
    cases r
    simp
  | cons m rest ih =>
    intro r
    cases r
    simp [List.foldl_cons, ih, Router.Use]

theorem mkRouter_eq {H : Type} (nf : H) (mws : List (H → H)) :
    mkRouter nf mws =
      { staticRoutes := [], dynamicRoutes := [], middleware := mws,
        notFound := nf } := by
  simp [mkRouter, foldl_Use, NewRouter]

/-! ### Re-registration of an identical path -/

theorem insertParts_insertParts {H : Type} (parts : List String) :
    ∀ (n : Node H) (h1 h2 : H),
      insertParts (insertParts n parts h1) parts h2 =
        insertParts n parts h2 := by
  induction parts with
  | nil =>
    intro n h1 h2
    simp [insertParts, Node.setHandler_setHandler]
  | cons part rest ih =>
    intro n h1 h2
    simp only [insertParts, Node.children_setChildren, mapLookup_insert_self,
      Node.setChildren_setChildren, mapInsert_mapInsert, ih]

theorem AddRoute_AddRoute {H : Type} (r : Router H) (method path : String)
    (h1 h2 : H) :
    Router.AddRoute (Router.AddRoute r method path h1) method path h2 =
      Router.AddRoute r method path h2 := by
  cases r with
  | mk st dyn mws nf =>
    by_cases hc :
        (strContains (trimSlashes path) ':' ||
          strContains (trimSlashes path) '*') = true
    · simp only [Router.AddRoute, hc, if_pos, if_true, mapLookup_insert_self,
        mapInsert_mapInsert, insertParts_insertParts]
    · simp only [Router.AddRoute, hc, if_neg, if_false, Bool.false_eq_true,
        mapInsert_mapInsert]

/-! ### Lemmas about trimming -/

theorem dropLeadingSlashes_head (cs : List Char) :
    (dropLeadingSlashes cs).head? ≠ some '/' := by
  induction cs with
  | nil => simp [dropLeadingSlashes]
  | cons c cs' ih =>
    by_cases h : c = '/'
    · simpa [dropLeadingSlashes, h] using ih
    · simp [dropLeadingSlashes, h]

theorem dropLeadingSlashes_of_head (cs : List Char)
    (h : cs.head? ≠ some '/') : dropLeadingSlashes cs = cs := by
  cases cs with
  | nil => rfl
  | cons c cs' =>
    simp only [List.head?_cons, ne_eq, Option.some.injEq] at h
    simp [dropLeadingSlashes, h]

theorem dropLeadingSlashes_append_last (l : List Char) (x : Char)
    (hx : x ≠ '/') :
    ∃ zs, dropLeadingSlashes (l ++ [x]) = zs ++ [x] := by
  induction l with
  | nil => exact ⟨[], by simp [dropLeadingSlashes, hx]⟩
  | cons c l' ih =>
    by_cases h : c = '/'
    · simpa [dropLeadingSlashes, h] using ih
    · exact ⟨c :: l', by simp [dropLeadingSlashes, h]⟩

theorem dropLeadingSlashes_append_slash (xs : List Char) :
    (dropLeadingSlashes xs = [] ∧ dropLeadingSlashes (xs ++ ['/']) = []) ∨
      dropLeadingSlashes (xs ++ ['/']) = dropLeadingSlashes xs ++ ['/'] := by
  induction xs with
  | nil => left; exact ⟨rfl, by simp [dropLeadingSlashes]⟩
  | cons c xs' ih =>
    by_cases h : c = '/'
    · simpa [dropLeadingSlashes, h] using ih
    · right; simp [dropLeadingSlashes, h]

theorem trimChars_cons_slash (cs : List Char) :
    trimChars ('/' :: cs) = trimChars cs := by
  simp [trimChars, dropLeadingSlashes]

theorem trimChars_append_slash (xs : List Char) :
    trimChars (xs ++ ['/']) = trimChars xs := by
  rcases dropLeadingSlashes_append_slash xs with ⟨h1, h2⟩ | h
  · simp [trimChars, h1, h2, dropLeadingSlashes]
  · simp only [trimChars, h, List.reverse_append, List.reverse_cons,
      List.reverse_nil, List.nil_append, List.singleton_append]
    simp [dropLeadingSlashes]

theorem trimChars_eq_self (cs : List Char) (h1 : cs.head? ≠ some '/')
    (h2 : cs.reverse.head? ≠ some '/') : trimChars cs = cs := by
  unfold trimChars
  rw [dropLeadingSlashes_of_head cs h1, dropLeadingSlashes_of_head _ h2,
    List.reverse_reverse]

theorem trimSlashes_eq_self (s : String) (h1 : s.data.head? ≠ some '/')
    (h2 : s.data.reverse.head? ≠ some '/') : trimSlashes s = s := by
  unfold trimSlashes
  rw [trimChars_eq_self s.data h1 h2]

theorem strData_append (a b : String) : (a ++ b).data = a.data ++ b.data :=
  rfl

theorem trimSlashes_slash_append (s : String) :
    trimSlashes ("/" ++ s) = trimSlashes s := by
  unfold trimSlashes
  apply congrArg
  exact trimChars_cons_slash s.data

theorem trimSlashes_append_slash (s : String) :
    trimSlashes (s ++ "/") = trimSlashes s := by
  unfold trimSlashes
  apply congrArg
  exact trimChars_append_slash s.data

/-! ### Lemmas about splitting and joining -/

theorem splitChars_no_slash (l : List Char) (hl : ∀ c ∈ l, c ≠ '/') :
    splitChars l = [l] := by
  induction l with
  | nil => rfl
  | cons c cs ih =>
    have hc : c ≠ '/' := hl c (by simp)
    have ih' := ih (fun c' hc' => hl c' (by simp [hc']))
    simp [splitChars, hc, ih']

theorem splitChars_append_slash (l rest : List Char)
    (hl : ∀ c ∈ l, c ≠ '/') :
    splitChars (l ++ '/' :: rest) = l :: splitChars rest := by
  induction l with
  | nil => simp [splitChars]
  | cons c cs ih =>
    have hc : c ≠ '/' := hl c (by simp)
    have ih' := ih (fun c' hc' => hl c' (by simp [hc']))
    simp [splitChars, hc, ih']

theorem joinSegs_data_cons (s s2 : String) (rest : List String) :
    (joinSegs (s :: s2 :: rest)).data =
      s.data ++ '/' :: (joinSegs (s2 :: rest)).data := by
  show (s ++ "/" ++ joinSegs (s2 :: rest)).data = _
  rw [strData_append, strData_append]
  simp

theorem joinSegs_ne_nil :
    ∀ (segs : List String), segs ≠ [] → (∀ s ∈ segs, s.data ≠ []) →
      (joinSegs segs).data ≠ [] := by
  intro segs
  cases segs with
  | nil => intro hne _; exact absurd rfl hne
  | cons s rest =>
    intro _ h
    cases rest with
    | nil => simpa [joinSegs] using h s (by simp)
    | cons s2 rest' =>
      rw [joinSegs_data_cons]
      simp

theorem head?_reverse_append (l1 l2 : List Char) (h : l2 ≠ []) :
    ((l1 ++ l2).reverse).head? = (l2.reverse).head? := by
  rw [List.reverse_append]
  exact List.head?_append_of_ne_nil _ (by simpa using h)

theorem joinSegs_reverse_head :
    ∀ (segs : List String), segs ≠ [] →
      (∀ s ∈ segs, s.data ≠ [] ∧ ∀ c ∈ s.data, c ≠ '/') →
      ((joinSegs segs).data).reverse.head? ≠ some '/' := by
  intro segs
  induction segs with
  | nil => intro hne _; exact absurd rfl hne
  | cons s rest ih =>
    intro _ h
    cases rest with
    | nil =>
      obtain ⟨hnil, hchars⟩ := h s (by simp)
      cases hrev : s.data.reverse with
      | nil => exact absurd (by simpa using hrev) hnil
      | cons y ys =>
        have hy : y ∈ s.data := by
          have hmem : y ∈ s.data.reverse := by rw [hrev]; simp
          simpa using hmem
        simpa [joinSegs, hrev] using hchars y hy
    | cons s2 rest' =>
      have ht : (joinSegs (s2 :: rest')).data ≠ [] :=
        joinSegs_ne_nil _ (by simp) (fun t htm => (h t (by simp [htm])).1)
      rw [joinSegs_data_cons, head?_reverse_append _ _ (by simp),
        List.reverse_cons, List.head?_append_of_ne_nil _ (by simpa using ht)]
      exact ih (by simp) (fun t htm => h t (by simp [htm]))

theorem splitChars_joinSegs :
    ∀ (segs : List String), segs ≠ [] →
      (∀ s ∈ segs, ∀ c ∈ s.data, c ≠ '/') →
      splitChars (joinSegs segs).data = segs.map String.data := by
  intro segs
  induction segs with
  | nil => intro hne _; exact absurd rfl hne
  | cons s rest ih =>
    intro _ h
    cases rest with
    | nil =>
      show splitChars s.data = [s.data]
      exact splitChars_no_slash s.data (h s (by simp))
    | cons s2 rest' =>
      rw [joinSegs_data_cons, splitChars_append_slash _ _ (h s (by simp)),
        ih (by simp) (fun t htm c hc => h t (by simp [htm]) c hc)]
      simp

/-! ### Small helpers used by the dispatch theorems -/

theorem strData_ne_nil (v : String) (h : v ≠ "") : v.data ≠ [] := by
  intro hn
  apply h
  cases v with
  | mk data =>
    simp at hn
    simp [hn]

theorem reverse_head_ne_slash (l : List Char) (hne : l ≠ [])
    (h : ∀ c ∈ l, c ≠ '/') : l.reverse.head? ≠ some '/' := by
  cases hrev : l.reverse with
  | nil => exact absurd (by simpa using hrev) hne
  | cons y ys =>
    have hy : y ∈ l := by
      have hmem : y ∈ l.reverse := by rw [hrev]; simp
      simpa using hmem
    simpa using h y hy

/-! ### The claims -/

/-- Claim C1: the spec says Group.AddRoute wraps the handler with the
group's middleware (first-registered outermost) and registers the
concatenated path with the parent router; the code instead starts its
wrapping loop at index len(middleware), so the very first slice access is
out of range and every call panics (modelled as `none`) before any
registration happens.  The spec is the clear intent — the analogous loop
in serveWithMiddleware correctly starts at len(middleware)-1. -/
theorem claim_C1_group_addRoute_always_panics (H : Type) (g : Group H)
    (r : Router H) (method path : String) (h : H) :
    Group.AddRoute g r method path h = none := by
  simp [Group.AddRoute, groupWrap_length]

/-- Claim C2: for middleware [m0, ..., mn-1] registered via Router.Use in
that order and any terminal handler h, the effective invoked handler is
m0 (m1 (... (mn-1 h))), i.e. the right fold of application over the
registration-ordered list; with no middleware the handler is invoked
directly. -/
theorem claim_C2_middleware_composition_order (H : Type) (nf h : H)
    (mws : List (H → H)) :
    serveWithMiddleware (mkRouter nf mws).middleware h =
        mws.foldr (fun m acc => m acc) h ∧
      serveWithMiddleware ([] : List (H → H)) h = h := by
  constructor
  · rw [mkRouter_eq]
    exact serveWithMiddleware_eq_foldr mws h
  · rfl

/-- Claim C4: a route whose trimmed path contains neither the parameter
marker nor the wildcard marker goes to the static table, and dispatching
the same (method, path) invokes exactly that handler wrapped by the
global middleware, regardless of whatever dynamic routes the router
already holds — the static table is consulted first. -/
theorem claim_C4_static_route_priority (H : Type) (r : Router H)
    (method path : String) (h : H)
    (hc1 : strContains (trimSlashes path) ':' = false)
    (hc2 : strContains (trimSlashes path) '*' = false) :
    Router.ServeHTTP (Router.AddRoute r method path h) method path =
      Outcome.static (serveWithMiddleware r.middleware h) := by
  cases r with
  | mk st dyn mws nf =>
    simp [Router.AddRoute, Router.ServeHTTP, hc1, hc2, mapLookup_insert_self]

/-- Witness for claim C4 at a concrete input. -/
theorem claim_C4_static_route_priority_witness :
    Router.ServeHTTP (Router.AddRoute (mkRouter (0 : Nat) []) "GET" "/a/b" 7)
        "GET" "/a/b" =
      Outcome.static (serveWithMiddleware (mkRouter (0 : Nat) []).middleware 7) :=
  claim_C4_static_route_priority Nat (mkRouter 0 []) "GET" "/a/b" 7
    (by decide) (by decide)

/-- Claim C5: at any depth of the dynamic-trie search a literal child equal
to the request segment is taken in preference to the parameter child, with
no parameter bound for that segment; and with both GET /users/me → h1 and
GET /users/:id → h2 registered, dispatching GET /users/me invokes h1
(wrapped by the global middleware) with no parameters bound. -/
theorem claim_C5_literal_over_param (H : Type) (nf h1 h2 : H)
    (mws : List (H → H)) (n c : Node H) (part : String) (rest : List String)
    (params : List (String × String))
    (hc : mapLookup n.children part = some c) :
    searchParts n (part :: rest) params = searchParts c rest params ∧
    Router.ServeHTTP
        (Router.AddRoute
          (Router.AddRoute (mkRouter nf mws) "GET" "users/me" h1)
          "GET" "users/:id" h2)
        "GET" "/users/me" =
      Outcome.static (serveWithMiddleware mws h1) := by
  constructor
  · simp [searchParts, hc]
  · rw [mkRouter_eq]
    rfl

/-- Witness for claim C5 at a concrete input. -/
theorem claim_C5_literal_over_param_witness :
    searchParts
        (Node.mk [("seg", Node.mk ([] : List (String × Node Nat)) (some 5)
          false false "")] none false false "")
        ["seg"] [] =
      searchParts
        (Node.mk ([] : List (String × Node Nat)) (some 5) false false "")
        [] [] ∧
    Router.ServeHTTP
        (Router.AddRoute
          (Router.AddRoute (mkRouter (0 : Nat) []) "GET" "users/me" 1)
          "GET" "users/:id" 2)
        "GET" "/users/me" =
      Outcome.static (serveWithMiddleware ([] : List (Nat → Nat)) 1) :=
  claim_C5_literal_over_param Nat 0 1 2 []
    (Node.mk [("seg", Node.mk [] (some 5) false false "")] none false false "")
    (Node.mk [] (some 5) false false "") "seg" [] [] rfl

/-- Claim C8: the three spellings /a/b, a/b and /a/b/ of a path are
interchangeable both at registration and at dispatch, because both
AddRoute and ServeHTTP trim surrounding slashes before doing anything
else. -/
theorem claim_C8_path_normalization (H : Type) (r : Router H)
    (method p : String) (h : H) :
    Router.AddRoute r method ("/" ++ p) h = Router.AddRoute r method p h ∧
    Router.AddRoute r method (p ++ "/") h = Router.AddRoute r method p h ∧
    Router.ServeHTTP r method ("/" ++ p) = Router.ServeHTTP r method p ∧
    Router.ServeHTTP r method (p ++ "/") = Router.ServeHTTP r method p := by
  refine ⟨?_, ?_, ?_, ?_⟩ <;>
    simp only [Router.AddRoute, Router.ServeHTTP, trimSlashes_slash_append,
      trimSlashes_append_slash]

/-- Claim C9: registering the same (method, path) twice — static or
dynamic — is the same as registering only the second handler: the previous
handler is silently replaced (registration is total, no error value
exists), and dispatching afterwards invokes the last-registered handler,
shown for a static and for a dynamic path. -/
theorem claim_C9_duplicate_registration_overwrites (H : Type)
    (r : Router H) (method path : String) (h1 h2 nf : H)
    (mws : List (H → H)) :
    Router.AddRoute (Router.AddRoute r method path h1) method path h2 =
        Router.AddRoute r method path h2 ∧
    Router.ServeHTTP
        (Router.AddRoute
          (Router.AddRoute (mkRouter nf mws) "GET" "x/y" h1) "GET" "x/y" h2)
        "GET" "/x/y" =
      Outcome.static (serveWithMiddleware mws h2) ∧
    Router.ServeHTTP
        (Router.AddRoute
          (Router.AddRoute (mkRouter nf mws) "GET" "u/:id" h1)
          "GET" "u/:id" h2)
        "GET" "/u/7" =
      Outcome.dynamic (serveWithMiddleware mws h2) "params" [("id", "7")] := by
  refine ⟨AddRoute_AddRoute r method path h1 h2, ?_, ?_⟩
  · rw [mkRouter_eq]
    rfl
  · rw [mkRouter_eq]
    rfl

/-- Claim C7: a dispatch ends at the not-found fallback (invoked once,
with no registered handler invoked) exactly when the static table misses
and the dynamic search yields no handler — in particular a dynamic search
that exhausts its segments at an intermediate, handler-less trie node
(shown concretely for GET /a/v against the registered route a/:x/b); and
NewRouter installs the standard not-found handler (`nf` stands for
http.NotFound) as the default fallback. -/
theorem claim_C7_not_found_fallback (H : Type) (r : Router H)
    (method rawPath : String) (nf hh : H) (mws : List (H → H)) :
    (Router.ServeHTTP r method rawPath = Outcome.notFound r.notFound ↔
      (mapLookup r.staticRoutes (method ++ " " ++ trimSlashes rawPath) =
          none ∧
        Option.all
          (fun root =>
            (Router.searchDynamicRoute root (trimSlashes rawPath)).1.isNone)
          (mapLookup r.dynamicRoutes method) = true)) ∧
    Router.ServeHTTP (Router.AddRoute (mkRouter nf mws) "GET" "a/:x/b" hh)
        "GET" "/a/v" = Outcome.notFound nf ∧
    (NewRouter nf : Router H).notFound = nf := by
  refine ⟨?_, ?_, rfl⟩
  · simp only [Router.ServeHTTP]
    cases hs : mapLookup r.staticRoutes (method ++ " " ++ trimSlashes rawPath)
      with
    | some hdl => simp [hs]
    | none =>
      cases hd : mapLookup r.dynamicRoutes method with
      | none => simp [hs, hd]
      | some root =>
        rcases hq : Router.searchDynamicRoute root (trimSlashes rawPath)
          with ⟨oh, ps⟩
        cases oh with
        | some hdl => simp [hs, hd, hq]
        | none => simp [hs, hd, hq]
  · rw [mkRouter_eq]
    rfl

/-- Claim C10: the parameter name at a trie position is fixed by the first
registration that creates the parameter node: after GET /a/:x → h1 and then
GET /a/:y → h2, the shared parameter node keeps the name "x" while its
handler becomes h2, so dispatching GET /a/v (for any non-empty slash-free
segment v other than the reserved key) invokes h2 with the value bound
under "x", not "y". -/
theorem claim_C10_param_name_fixed_by_first_registration (H : Type)
    (nf h1 h2 : H) (mws : List (H → H)) (v : String)
    (hv0 : v ≠ "") (hvp : v ≠ ":param") (hvs : ∀ c ∈ v.data, c ≠ '/') :
    Router.ServeHTTP
        (Router.AddRoute (Router.AddRoute (mkRouter nf mws) "GET" "a/:x" h1)
          "GET" "a/:y" h2)
        "GET" ("/a/" ++ v) =
      Outcome.dynamic (serveWithMiddleware mws h2) "params" [("x", v)] := by
  have hvnil : v.data ≠ [] := strData_ne_nil v hv0
  have htrim : trimSlashes ("/a/" ++ v) = "a/" ++ v := by
    have ha : (("a/" ++ v : String)).data.head? ≠ some '/' := by
      rw [show (("a/" ++ v : String)).data = 'a' :: '/' :: v.data from rfl]
      simp
    have hb : (("a/" ++ v : String)).data.reverse.head? ≠ some '/' := by
      rw [show (("a/" ++ v : String)).data = ['a', '/'] ++ v.data from rfl,
        head?_reverse_append _ _ hvnil]
      exact reverse_head_ne_slash v.data hvnil hvs
    calc trimSlashes ("/a/" ++ v)
        = trimSlashes ("a/" ++ v) := trimSlashes_slash_append ("a/" ++ v)
      _ = "a/" ++ v := trimSlashes_eq_self _ ha hb
  have hsplit : splitSlash ("a/" ++ v) = ["a", v] := by
    unfold splitSlash
    rw [show (("a/" ++ v : String)).data = ['a'] ++ '/' :: v.data from rfl,
      splitChars_append_slash ['a'] v.data (by decide),
      splitChars_no_slash v.data hvs]
    rfl
  rw [mkRouter_eq]
  rw [show Router.AddRoute
      (Router.AddRoute
        { staticRoutes := [], dynamicRoutes := [], middleware := mws,
          notFound := nf } "GET" "a/:x" h1) "GET" "a/:y" h2 =
    { staticRoutes := [],
      dynamicRoutes := [("GET",
        Node.mk [("a",
          Node.mk [(":param", Node.mk [] (some h2) true false "x")]
            none false false "")] none false false "")],
      middleware := mws, notFound := nf } from rfl]
  have hlook : mapLookup
      [(":param", (Node.mk [] (some h2) true false "x" : Node H))] v =
      none := by
    simp [mapLookup, Ne.symm hvp]
  have hsearch : Router.searchDynamicRoute
      (Node.mk [("a",
        Node.mk [(":param", Node.mk [] (some h2) true false "x")]
          none false false "")] none false false "" : Node H)
      ("a/" ++ v) = (some h2, [("x", v)]) := by
    unfold Router.searchDynamicRoute
    rw [hsplit]
    show searchParts
        (Node.mk [(":param", Node.mk [] (some h2) true false "x")]
          none false false "") [v] [] = (some h2, [("x", v)])
    simp only [searchParts, Node.children, hlook]
    simp [mapLookup, mapInsert, Node.paramName, Node.handler]
  simp only [Router.ServeHTTP, htrim]
  simp [mapLookup, hsearch]

theorem map_mk_data (l : List String) :
    List.map (fun cs => (⟨cs⟩ : String)) (List.map String.data l) = l := by
  induction l with
  | nil => rfl
  | cons s rest ih =>
    rw [List.map_cons, List.map_cons, ih]

/-- Claim C3: registering a dynamic route with one named parameter
(method /users/:name → h) and dispatching method /users/v for a non-empty
slash-free segment v (other than the reserved key) invokes h wrapped by
the global middleware, with the mapping from the parameter name to the
matched segment value attached under the context key "params" before the
invocation. -/
theorem claim_C3_single_param_binding (H : Type) (nf h : H)
    (mws : List (H → H)) (method name v : String)
    (hn0 : name ≠ "") (hns : ∀ c ∈ name.data, c ≠ '/')
    (hv0 : v ≠ "") (hvp : v ≠ ":param") (hvs : ∀ c ∈ v.data, c ≠ '/') :
    Router.ServeHTTP
        (Router.AddRoute (mkRouter nf mws) method ("users/:" ++ name) h)
        method ("/users/" ++ v) =
      Outcome.dynamic (serveWithMiddleware mws h) "params" [(name, v)] := by
  have hnnil : name.data ≠ [] := strData_ne_nil name hn0
  have hvnil : v.data ≠ [] := strData_ne_nil v hv0
  have htrimReg : trimSlashes ("users/:" ++ name) = "users/:" ++ name := by
    apply trimSlashes_eq_self
    · rw [show (("users/:" ++ name : String)).data =
        'u' :: 's' :: 'e' :: 'r' :: 's' :: '/' :: ':' :: name.data from rfl]
      simp
    · rw [show (("users/:" ++ name : String)).data =
          ['u', 's', 'e', 'r', 's', '/', ':'] ++ name.data from rfl,
        head?_reverse_append _ _ hnnil]
      exact reverse_head_ne_slash name.data hnnil hns
  have hsplitReg : splitSlash ("users/:" ++ name) = ["users", ":" ++ name] := by
    unfold splitSlash
    rw [show (("users/:" ++ name : String)).data =
        ['u', 's', 'e', 'r', 's'] ++ '/' :: (':' :: name.data) from rfl,
      splitChars_append_slash _ _ (by decide),
      splitChars_no_slash (':' :: name.data) ?hc]
    · rfl
    case hc =>
      intro c hc
      rcases List.mem_cons.mp hc with hh | hh
      · rw [hh]; decide
      · exact hns c hh
  have htrimReq : trimSlashes ("/users/" ++ v) = "users/" ++ v := by
    calc trimSlashes ("/users/" ++ v)
        = trimSlashes ("users/" ++ v) := trimSlashes_slash_append ("users/" ++ v)
      _ = "users/" ++ v := by
          apply trimSlashes_eq_self
          · rw [show (("users/" ++ v : String)).data =
              'u' :: 's' :: 'e' :: 'r' :: 's' :: '/' :: v.data from rfl]
            simp
          · rw [show (("users/" ++ v : String)).data =
                ['u', 's', 'e', 'r', 's', '/'] ++ v.data from rfl,
              head?_reverse_append _ _ hvnil]
            exact reverse_head_ne_slash v.data hvnil hvs
  have hsplitReq : splitSlash ("users/" ++ v) = ["users", v] := by
    unfold splitSlash
    rw [show (("users/" ++ v : String)).data =
        ['u', 's', 'e', 'r', 's'] ++ '/' :: v.data from rfl,
      splitChars_append_slash _ _ (by decide),
      splitChars_no_slash v.data hvs]
    rfl
  rw [mkRouter_eq]
  have hreg : Router.AddRoute
      { staticRoutes := [], dynamicRoutes := [], middleware := mws,
        notFound := nf } method ("users/:" ++ name) h =
      { staticRoutes := [],
        dynamicRoutes := [(method,
          Node.mk [("users",
            Node.mk [(":param", Node.mk [] (some h) true false name)]
              none false false "")] none false false "")],
        middleware := mws, notFound := nf } := by
    simp only [Router.AddRoute, htrimReg, hsplitReg]
    rfl
  rw [hreg]
  have hlook : mapLookup
      [(":param", (Node.mk [] (some h) true false name : Node H))] v =
      none := by
    simp [mapLookup, Ne.symm hvp]
  have hsearch : Router.searchDynamicRoute
      (Node.mk [("users",
        Node.mk [(":param", Node.mk [] (some h) true false name)]
          none false false "")] none false false "" : Node H)
      ("users/" ++ v) = (some h, [(name, v)]) := by
    unfold Router.searchDynamicRoute
    rw [hsplitReq]
    show searchParts
        (Node.mk [(":param", Node.mk [] (some h) true false name)]
          none false false "") [v] [] = (some h, [(name, v)])
    simp only [searchParts, Node.children, hlook]
    simp [mapLookup, mapInsert, Node.paramName, Node.handler, hn0]
  simp only [Router.ServeHTTP, htrimReq]
  simp [mapLookup, hsearch]

/-- Witness for claim C3 at a concrete input: GET /users/:id → 7,
dispatch GET /users/42. -/
theorem claim_C3_single_param_binding_witness :
    Router.ServeHTTP
        (Router.AddRoute (mkRouter (0 : Nat) []) "GET" ("users/:" ++ "id") 7)
        "GET" ("/users/" ++ "42") =
      Outcome.dynamic (serveWithMiddleware ([] : List (Nat → Nat)) 7)
        "params" [("id", "42")] :=
  claim_C3_single_param_binding Nat 0 7 [] "GET" "id" "42" (by decide)
    (by decide) (by decide) (by decide) (by decide)

/-- Witness for claim C10 at a concrete input: dispatch GET /a/v after
GET /a/:x → 1 and GET /a/:y → 2. -/
theorem claim_C10_param_name_fixed_witness :
    Router.ServeHTTP
        (Router.AddRoute
          (Router.AddRoute (mkRouter (0 : Nat) []) "GET" "a/:x" 1)
          "GET" "a/:y" 2)
        "GET" ("/a/" ++ "v") =
      Outcome.dynamic (serveWithMiddleware ([] : List (Nat → Nat)) 2)
        "params" [("x", "v")] :=
  claim_C10_param_name_fixed_by_first_registration Nat 0 1 2 [] "v"
    (by decide) (by decide) (by decide)

/-- Claim C6: with method /files/* → h registered, dispatching
method /files/s0/s1/.../sk for any non-empty list of non-empty slash-free
segments (whose first segment is not the literal "*") invokes h wrapped by
the global middleware: the search reaches the files node, finds neither a
literal nor a parameter child for the next segment, and returns the
wildcard child's handler immediately, consuming no further segments and
binding no parameters. -/
theorem claim_C6_wildcard_short_circuit (H : Type) (nf h : H)
    (mws : List (H → H)) (method s0 : String) (srest : List String)
    (h0 : s0 ≠ "*")
    (hall : ∀ s ∈ s0 :: srest, s ≠ "" ∧ ∀ c ∈ s.data, c ≠ '/') :
    Router.ServeHTTP (Router.AddRoute (mkRouter nf mws) method "files/*" h)
        method ("/files/" ++ joinSegs (s0 :: srest)) =
      Outcome.dynamic (serveWithMiddleware mws h) "params" [] := by
  have hJne : (joinSegs (s0 :: srest)).data ≠ [] :=
    joinSegs_ne_nil _ (by simp)
      (fun s hs => strData_ne_nil s (hall s hs).1)
  have hJrev : ((joinSegs (s0 :: srest)).data).reverse.head? ≠ some '/' :=
    joinSegs_reverse_head _ (by simp)
      (fun s hs => ⟨strData_ne_nil s (hall s hs).1, (hall s hs).2⟩)
  have htrim : trimSlashes ("/files/" ++ joinSegs (s0 :: srest)) =
      "files/" ++ joinSegs (s0 :: srest) := by
    calc trimSlashes ("/files/" ++ joinSegs (s0 :: srest))
        = trimSlashes ("files/" ++ joinSegs (s0 :: srest)) :=
          trimSlashes_slash_append ("files/" ++ joinSegs (s0 :: srest))
      _ = "files/" ++ joinSegs (s0 :: srest) := by
          apply trimSlashes_eq_self
          · rw [show (("files/" ++ joinSegs (s0 :: srest) : String)).data =
              'f' :: 'i' :: 'l' :: 'e' :: 's' :: '/' ::
                (joinSegs (s0 :: srest)).data from rfl]
            simp
          · rw [show (("files/" ++ joinSegs (s0 :: srest) : String)).data =
                ['f', 'i', 'l', 'e', 's', '/'] ++
                  (joinSegs (s0 :: srest)).data from rfl,
              head?_reverse_append _ _ hJne]
            exact hJrev
  have hsplit : splitSlash ("files/" ++ joinSegs (s0 :: srest)) =
      "files" :: s0 :: srest := by
    unfold splitSlash
    rw [show (("files/" ++ joinSegs (s0 :: srest) : String)).data =
        ['f', 'i', 'l', 'e', 's'] ++ '/' :: (joinSegs (s0 :: srest)).data
        from rfl,
      splitChars_append_slash _ _ (by decide),
      splitChars_joinSegs _ (by simp) (fun s hs c hc => (hall s hs).2 c hc),
      List.map_cons, map_mk_data]
  rw [mkRouter_eq]
  rw [show Router.AddRoute
      { staticRoutes := [], dynamicRoutes := [], middleware := mws,
        notFound := nf } method "files/*" h =
    { staticRoutes := [],
      dynamicRoutes := [(method,
        Node.mk [("files",
          Node.mk [("*", Node.mk [] (some h) false true "")]
            none false false "")] none false false "")],
      middleware := mws, notFound := nf } from rfl]
  have hl1 : mapLookup
      [("*", (Node.mk [] (some h) false true "" : Node H))] s0 = none := by
    simp [mapLookup, Ne.symm h0]
  have hsearch : Router.searchDynamicRoute
      (Node.mk [("files",
        Node.mk [("*", Node.mk [] (some h) false true "")]
          none false false "")] none false false "" : Node H)
      ("files/" ++ joinSegs (s0 :: srest)) = (some h, []) := by
    unfold Router.searchDynamicRoute
    rw [hsplit]
    show searchParts
        (Node.mk [("*", Node.mk [] (some h) false true "")]
          none false false "") (s0 :: srest) [] = (some h, [])
    simp only [searchParts, Node.children, hl1]
    simp [mapLookup, Node.handler]
  simp only [Router.ServeHTTP, htrim]
  simp [mapLookup, hsearch]

/-- Witness for claim C6 at a concrete input: GET /files/* → 9,
dispatch GET /files/a/b/c. -/
theorem claim_C6_wildcard_short_circuit_witness :
    Router.ServeHTTP
        (Router.AddRoute (mkRouter (0 : Nat) []) "GET" "files/*" 9)
        "GET" ("/files/" ++ joinSegs ["a", "b", "c"]) =
      Outcome.dynamic (serveWithMiddleware ([] : List (Nat → Nat)) 9)
        "params" [] :=
  claim_C6_wildcard_short_circuit Nat 0 9 [] "GET" "a" ["b", "c"]
    (by decide) (by decide)

end Chiyo
